import Mathlib

/-!
Verification development for the Desckars/mcp-server repository.

The repository holds two parallel implementations of the same MCP
(Model Context Protocol) server design:

* a JavaScript implementation whose dispatcher core is
  `ToolsRegistry` (src/tools/ToolsRegistry.js) together with the
  MCP-SDK request handlers in src/index.js, and
* a Java implementation whose dispatcher core is
  `ToolManager` (handlers/ToolManager.java), the protocol adapter
  `MCPProtocolHandler` (protocol/MCPProtocolHandler.java) and the
  `FileSystemTool` (tools/FileSystemTool.java).

This file gives a shallow embedding of those components and proves
properties about them.  JavaScript `Map` objects are modelled as
insertion-ordered association lists (JS language semantics); Java
`ConcurrentHashMap` is modelled as an association list as well, with
the caveat that only the key-value mapping (not iteration order) is
specified for it.  Asynchronous handlers are modelled as pure
functions returning `Except`, where `Except.error` stands for a
thrown error / rejected promise carrying the error message.
-/

set_option autoImplicit false

namespace Mcp

/-- JSON-like runtime values.  `undef` is the JavaScript `undefined`
(the result of reading a missing property); `null` is JSON null,
which is also what Jackson hands a Java tool when a field is absent
at the protocol layer. -/
inductive Json where
  | null
  | undef
  | bool (b : Bool)
  | num (n : Int)
  | str (s : String)
  | arr (xs : List Json)
  | obj (kvs : List (String × Json))

/-- Property lookup on an object; `none` when the key is absent or
the value is not an object. -/
def Json.get? : Json → String → Option Json
  | .obj kvs, k => kvs.lookup k
  | _, _ => none

/-- JavaScript member access `o.k`: a missing property reads as
`undefined`. -/
def jsGet (o : Json) (k : String) : Json :=
  (o.get? k).getD .undef

mutual

/-- JavaScript string coercion (template-literal interpolation
`${v}`) for the values modelled here. -/
def jsToString : Json → String
  | .null => "null"
  | .undef => "undefined"
  | .bool true => "true"
  | .bool false => "false"
  | .num n => toString n
  | .str s => s
  | .arr xs => jsToStringArr xs
  | .obj _ => "[object Object]"

/-- JavaScript `Array.prototype.toString`: elements joined by commas,
with `null` and `undefined` elements rendered empty. -/
def jsToStringArr : List Json → String
  | [] => ""
  | [x] => jsToStringElem x
  | x :: y :: rest => jsToStringElem x ++ "," ++ jsToStringArr (y :: rest)

/-- One element of a JavaScript array join. -/
def jsToStringElem : Json → String
  | .null => ""
  | .undef => ""
  | v => jsToString v

end

/-- Jackson `JsonNode.asText()` as used by the Java side: textual
nodes yield their value, numbers and booleans their rendering, null
nodes the string "null", and missing/container nodes the empty
string. -/
def asText : Json → String
  | .str s => s
  | .num n => toString n
  | .bool true => "true"
  | .bool false => "false"
  | .null => "null"
  | _ => ""

/-- The `required` list of a JSON-Schema object (the names a caller
must supply). -/
def schemaRequired (schema : Json) : List String :=
  match schema.get? "required" with
  | some (.arr xs) => xs.filterMap fun j =>
      match j with
      | .str s => some s
      | _ => none
  | _ => []

/-! ### Association-list model of keyed maps

`mapGet`/`mapSet`/`mapRemove` model JavaScript `Map.get`/`Map.set`/
`Map.delete` (insertion-ordered: `set` on an existing key updates in
place, on a fresh key appends) and the key-value mapping of Java
`ConcurrentHashMap.get`/`put`/`remove`. -/

/-- Lookup by key. -/
def mapGet {α : Type} : List (String × α) → String → Option α
  | [], _ => none
  | (k0, v0) :: rest, k => if k0 = k then some v0 else mapGet rest k

/-- Insert or replace: an existing key keeps its position, a fresh
key is appended at the end (JS `Map.set` semantics). -/
def mapSet {α : Type} : List (String × α) → String → α → List (String × α)
  | [], k, v => [(k, v)]
  | (k0, v0) :: rest, k, v =>
      if k0 = k then (k, v) :: rest else (k0, v0) :: mapSet rest k v

/-- Remove a key if present. -/
def mapRemove {α : Type} : List (String × α) → String → List (String × α)
  | [], _ => []
  | (k0, v0) :: rest, k =>
      if k0 = k then mapRemove rest k else (k0, v0) :: mapRemove rest k

theorem mapGet_set_self {α : Type} (m : List (String × α)) (k : String) (v : α) :
    mapGet (mapSet m k v) k = some v := by
  induction m with
  | nil => simp [mapGet, mapSet]
  | cons hd tl ih =>
      obtain ⟨k0, v0⟩ := hd
      by_cases h : k0 = k
      · simp [mapGet, mapSet, h]
      · simp [mapGet, mapSet, h, ih]

theorem mapGet_set_ne {α : Type} (m : List (String × α)) (k k2 : String) (v : α)
    (h : k2 ≠ k) : mapGet (mapSet m k v) k2 = mapGet m k2 := by
  induction m with
  | nil => simp [mapGet, mapSet, Ne.symm h]
  | cons hd tl ih =>
      obtain ⟨k0, v0⟩ := hd
      by_cases h0 : k0 = k
      · subst h0
        simp [mapGet, mapSet, Ne.symm h]
      · by_cases h1 : k0 = k2
        · simp [mapGet, mapSet, h0, h1, h]
        · simp [mapGet, mapSet, h0, h1, ih]

theorem mapGet_remove_self {α : Type} (m : List (String × α)) (k : String) :
    mapGet (mapRemove m k) k = none := by
  induction m with
  | nil => simp [mapGet, mapRemove]
  | cons hd tl ih =>
      obtain ⟨k0, v0⟩ := hd
      by_cases h : k0 = k
      · simp [mapRemove, h, ih]
      · simp [mapGet, mapRemove, h, ih]

theorem mapGet_remove_ne {α : Type} (m : List (String × α)) (k k2 : String)
    (h : k2 ≠ k) : mapGet (mapRemove m k) k2 = mapGet m k2 := by
  induction m with
  | nil => simp [mapRemove]
  | cons hd tl ih =>
      obtain ⟨k0, v0⟩ := hd
      by_cases h0 : k0 = k
      · subst h0
        simp [mapGet, mapRemove, Ne.symm h, ih]
      · by_cases h1 : k0 = k2
        · simp [mapGet, mapRemove, h0, h1, h]
        · simp [mapGet, mapRemove, h0, h1, ih]

theorem mapSet_fresh_append {α : Type} (m : List (String × α)) (k : String) (v : α)
    (h : mapGet m k = none) : mapSet m k v = m ++ [(k, v)] := by
  induction m with
  | nil => simp [mapSet]
  | cons hd tl ih =>
      obtain ⟨k0, v0⟩ := hd
      by_cases h0 : k0 = k
      · simp [mapGet, h0] at h
      · simp [mapGet, h0] at h
        simp [mapSet, h0, ih h]

/-! ### Kernel-friendly string helpers

The embeddings below avoid the byte-position based `String` library
functions and work on the underlying character lists, so that every
definition evaluates by plain kernel reduction. -/

/-- Java `Character.isWhitespace`-style test used by `String.trim`:
`trim` removes every code point up to U+0020. -/
def isJavaSpace (c : Char) : Bool := c.toNat ≤ 32

/-- Java `String.trim()`. -/
def strTrim (s : String) : String :=
  ⟨((s.data.dropWhile isJavaSpace).reverse.dropWhile isJavaSpace).reverse⟩

/-- `s.startsWith(pre)`. -/
def strStartsWith (s pre : String) : Bool :=
  pre.data.isPrefixOf s.data

/-- True when ".." occurs as a substring (two consecutive dots). -/
def ddAux : List Char → Bool
  | c1 :: c2 :: rest => (c1 == '.' && c2 == '.') || ddAux (c2 :: rest)
  | _ => false

/-- `s.contains("..")`. -/
def hasDotDot (s : String) : Bool := ddAux s.data

/-- Split a character list at every slash. -/
def splitSlashAux : List Char → List Char → List String
  | acc, [] => [⟨acc.reverse⟩]
  | acc, c :: rest =>
      if c = '/' then ⟨acc.reverse⟩ :: splitSlashAux [] rest
      else splitSlashAux (c :: acc) rest

/-- The name segments of a slash-separated path, as produced by
`Paths.get` (empty segments from repeated or trailing separators are
collapsed). -/
def segmentsOf (s : String) : List String :=
  (splitSlashAux [] s.data).filter fun seg => seg != ""

/-- Join segments back with slashes (`Path.toString` of a relative
path). -/
def joinSlash : List String → String
  | [] => ""
  | [s] => s
  | s :: rest => s ++ "/" ++ joinSlash rest

/-- Replace every backslash by a slash
(`relativePath.replace("\\", "/")`). -/
def replaceBackslash (s : String) : String :=
  ⟨s.data.map fun c => if c = '\\' then '/' else c⟩

/-- Drop the first two characters (`relativePath.substring(2)` after a
"./" test). -/
def strDrop2 (s : String) : String := ⟨s.data.drop 2⟩

/-- One step of `Path.normalize` over the segments: "." is dropped and
".." removes the preceding name when there is one (leading ".."
segments of a relative path are kept). -/
def normAux : List String → List String → List String
  | acc, [] => acc.reverse
  | acc, s :: rest =>
      if s = "." then
        normAux acc rest
      else if s = ".." then
        match acc with
        | [] => normAux [".."] rest
        | a :: tl => if a = ".." then normAux (".." :: a :: tl) rest else normAux tl rest
      else
        normAux (s :: acc) rest

/-- `Path.normalize` on a segment list. -/
def normalizeSegs (segs : List String) : List String := normAux [] segs

/-- `p.startsWith(base)` on `Path` values: the segments of `base` are
an initial run of the segments of `p`. -/
def startsWithSegs : List String → List String → Bool
  | [], _ => true
  | _ :: _, [] => false
  | b :: bs, p :: ps => b == p && startsWithSegs bs ps

/-! ### JavaScript side: `ToolsRegistry` (src/tools/ToolsRegistry.js)

A tool entry is the object stored by `this.tools.set(name, {...})`:
name, description, inputSchema and an async handler.  The handler is
modelled as a pure function returning `Except String Json`, with
`Except.error msg` standing for a thrown/rejected error carrying
message `msg`. -/

structure JsTool where
  name : String
  description : String
  inputSchema : Json
  handler : Json → Except String Json

/-- The `this.tools` JavaScript `Map`, as an insertion-ordered
association list. -/
abbrev JsRegistry : Type := List (String × JsTool)

/-- Errors thrown by `ToolsRegistry.executeTool`. -/
inductive JsErr where
  | notFound (name : String)
  | thrown (msg : String)

/-- The try/catch around `await tool.handler(args)` in
`ToolsRegistry.executeTool` (lines 764-778): a successful result is
returned unchanged, a thrown error is logged and rethrown
unchanged. -/
def jsRun : Except String Json → Except JsErr Json
  | .ok r => .ok r
  | .error e => .error (.thrown e)

/-- Embeds `ToolsRegistry.executeTool` (lines 756-779): throw
"Herramienta no encontrada" when the name is absent, otherwise call
the handler and return/rethrow its outcome.  The `Bool` component
records whether `tool.handler` was invoked, so that absence of side
effects on collaborators is expressible; it is `true` exactly on the
code path that reaches `tool.handler(args)`. -/
def ToolsRegistry.executeTool (reg : JsRegistry) (name : String) (args : Json) :
    Except JsErr Json × Bool :=
  match mapGet reg name with
  | none => (.error (.notFound name), false)
  | some tool => (jsRun (tool.handler args), true)

/-- One row of the `tools/list` projection. -/
structure ToolListing where
  name : String
  description : String
  inputSchema : Json

/-- Embeds `ToolsRegistry.getAvailableTools` (lines 748-754):
`Array.from(this.tools.values()).map(...)` projected to
name/description/inputSchema, in `Map` iteration (= insertion)
order. -/
def ToolsRegistry.getAvailableTools (reg : JsRegistry) : List ToolListing :=
  reg.map fun kv => ⟨kv.2.name, kv.2.description, kv.2.inputSchema⟩

/-- Embeds the `ListToolsRequestSchema` handler of src/index.js: it
reads the registry and returns the listing, leaving the registry
untouched (the returned state is the state the next request sees). -/
def ToolsRegistry.toolsListCall (reg : JsRegistry) : JsRegistry × List ToolListing :=
  (reg, ToolsRegistry.getAvailableTools reg)

/-- Registering a sequence of tool descriptors in order, as
`registerTools` does with successive `this.tools.set(tool.name, tool)`
calls (every registered object has its `name` field equal to its
key). -/
def ToolsRegistry.registerList (ts : List JsTool) : JsRegistry :=
  ts.foldl (fun reg t => mapSet reg t.name t) []

/-- The `echo` tool exactly as registered in `registerBasicTools`
(lines 31-47): schema requires `message`, handler returns the
template literal `Echo: ${args.message}`. -/
def echoTool : JsTool where
  name := "echo"
  description := "Repite el mensaje proporcionado"
  inputSchema := .obj
    [("type", .str "object"),
     ("properties", .obj
       [("message", .obj
         [("type", .str "string"),
          ("description", .str "Mensaje a repetir")])]),
     ("required", .arr [.str "message"])]
  handler := fun args => .ok (.str ("Echo: " ++ jsToString (jsGet args "message")))

/-- The `get_time` tool of `registerBasicTools` (lines 50-60).  Its
handler reads the wall clock (`new Date().toISOString()`), modelled
by the `now` parameter. -/
def getTimeTool (now : String) : JsTool where
  name := "get_time"
  description := "Obtiene la hora actual"
  inputSchema := .obj [("type", .str "object"), ("properties", .obj [])]
  handler := fun _ => .ok (.str ("Hora actual: " ++ now))

/-- A registry state holding just the `echo` tool (the first entry
`registerBasicTools` creates). -/
def echoReg : JsRegistry := mapSet [] "echo" echoTool

/-! ### Java side: `ToolManager` (handlers/ToolManager.java) -/

/-- A registered `MCPTool` implementation: the interface methods
`getName`/`getDescription`/`getCategory`/`getInputSchema`/`getVersion`/
`requiresAuth`/`isEnabled` are data fields here, and `execute` is the
tool body (`Except.error msg` models a thrown exception with message
`msg`). -/
structure JTool where
  name : String
  description : String
  category : String
  inputSchema : Json
  version : String
  requiresAuth : Bool
  enabled : Bool
  execute : Json → Except String Json

/-- The mutable state of a `ToolManager`: the `tools` map and the two
atomic counters. -/
structure ToolManagerState where
  tools : List (String × JTool)
  executionCount : Nat
  errorCount : Nat

/-- A freshly constructed `ToolManager`. -/
def ToolManager.initState : ToolManagerState := ⟨[], 0, 0⟩

/-- The error taxonomy of `ToolManager`: `invalidDescriptor` is the
`IllegalArgumentException` of `registerTool`, `toolNotFound` and
`toolDisabled` the two guard exceptions of `executeTool`, and
`executionFailed name msg` the `RuntimeException("Error ejecutando
herramienta " + name + ": " + msg)` wrapping a handler failure. -/
inductive JErr where
  | invalidDescriptor
  | toolNotFound (name : String)
  | toolDisabled (name : String)
  | executionFailed (name : String) (msg : String)

/-- Embeds `ToolManager.registerTool` (lines 59-76): an empty (after
trim) name raises `IllegalArgumentException`; a disabled tool is
logged and skipped without touching the map; otherwise
`tools.put(name, tool)`. -/
def ToolManager.registerTool (st : ToolManagerState) (tool : JTool) :
    Except JErr ToolManagerState :=
  if strTrim tool.name = "" then .error .invalidDescriptor
  else if !tool.enabled then .ok st
  else .ok { st with tools := mapSet st.tools tool.name tool }

/-- Embeds `ToolManager.unregisterTool` (lines 81-85):
`tools.remove(name)`, a no-op when absent. -/
def ToolManager.unregisterTool (st : ToolManagerState) (name : String) :
    ToolManagerState :=
  { st with tools := mapRemove st.tools name }

/-- Embeds `ToolManager.executeTool` (lines 125-157):
`executionCount` is incremented on entry; an unknown or disabled name
raises after incrementing `errorCount`; otherwise `tool.execute` runs
and a thrown error is wrapped as `executionFailed` after incrementing
`errorCount`. -/
def ToolManager.executeTool (st : ToolManagerState) (name : String) (args : Json) :
    ToolManagerState × Except JErr Json :=
  let st1 : ToolManagerState := { st with executionCount := st.executionCount + 1 }
  match mapGet st1.tools name with
  | none =>
      ({ st1 with errorCount := st1.errorCount + 1 }, .error (.toolNotFound name))
  | some tool =>
      if !tool.enabled then
        ({ st1 with errorCount := st1.errorCount + 1 }, .error (.toolDisabled name))
      else
        match tool.execute args with
        | .ok r => (st1, .ok r)
        | .error m =>
            ({ st1 with errorCount := st1.errorCount + 1 },
             .error (.executionFailed name m))

/-- One row of the Java `tools/list` JSON (name, description,
inputSchema plus `_metadata` category/version/requiresAuth). -/
structure JToolListing where
  name : String
  description : String
  inputSchema : Json
  category : String
  version : String
  requiresAuth : Bool

/-- Embeds `ToolManager.getToolsListAsJson` (lines 90-120): iterates
over every value of `tools` — with no enabled-filter — and projects
it to a listing row. -/
def ToolManager.getToolsListAsJson (st : ToolManagerState) : List JToolListing :=
  st.tools.map fun kv =>
    ⟨kv.2.name, kv.2.description, kv.2.inputSchema, kv.2.category,
     kv.2.version, kv.2.requiresAuth⟩

/-- Embeds `ToolManager.getToolCount` (lines 225-229): the number of
registered tools whose `isEnabled()` is true. -/
def ToolManager.getToolCount (st : ToolManagerState) : Nat :=
  (st.tools.filter fun kv => kv.2.enabled).length

/-- Embeds the lookup step of `ToolManager.getToolInfo`,
that is `tools.get(name)` (and `ToolsRegistry.getToolInfo` on the JS side, lines 781-783). -/
def ToolManager.getToolInfo (st : ToolManagerState) (name : String) : Option JTool :=
  mapGet st.tools name

/-- Modelled from the spec: `listAll()` "produces a finite,
restartable snapshot in insertion order; excludes descriptors
explicitly disabled".  Used only to compare the code listing against
the words of the spec. -/
def specListAll (st : ToolManagerState) : List JToolListing :=
  (st.tools.filter fun kv => kv.2.enabled).map fun kv =>
    ⟨kv.2.name, kv.2.description, kv.2.inputSchema, kv.2.category,
     kv.2.version, kv.2.requiresAuth⟩

/-- The administrative operations that mutate a `ToolManager` during
a process lifetime. -/
inductive RegOp where
  | reg (t : JTool)
  | unreg (name : String)
  | exec (name : String) (args : Json)

/-- Applying one operation to the manager state; a registration that
throws leaves the state unchanged (the exception propagates to the
caller, the map was not touched). -/
def applyOp (st : ToolManagerState) : RegOp → ToolManagerState
  | .reg t =>
      match ToolManager.registerTool st t with
      | .ok st2 => st2
      | .error _ => st
  | .unreg n => ToolManager.unregisterTool st n
  | .exec n a => (ToolManager.executeTool st n a).1

/-- Running a sequence of operations from a given state. -/
def runOps (st : ToolManagerState) (ops : List RegOp) : ToolManagerState :=
  ops.foldl applyOp st

/-! ### Protocol adapter: `MCPProtocolHandler`
(protocol/MCPProtocolHandler.java)

An inbound message after JSON parsing: the `jsonrpc` tag (absent or
with its textual value), the `id` (absent for notifications), the
`method` (`path("method").asText()`, so the empty string when absent)
and the `params` node.  A response is its `id` slot (Jackson
serializes an absent/null id node as JSON null, modelled `none`)
together with either a `result` or an `error` with its code. -/

structure RpcMessage where
  jsonrpc : Option String
  id : Option Int
  method : String
  params : Option Json

/-- A response body: a `result` payload or an `error` object carrying
its JSON-RPC code (payload contents are not needed by the claims). -/
inductive RespBody where
  | result
  | err (code : Int)

/-- One serialized response: the echoed `id` and the body. -/
structure RpcResponse where
  id : Option Int
  body : RespBody

/-- The handler state: the `isInitialized` flag (`ready` here) and the
`ToolManager` it dispatches to. -/
structure ProtoState where
  ready : Bool
  tm : ToolManagerState

/-- A freshly constructed handler over a fresh manager. -/
def protoInit : ProtoState := ⟨false, ToolManager.initState⟩

/-- Embeds `MCPProtocolHandler.handleToolsCall` (lines 232-258): the
`isInitialized` guard answers -32002; a missing `params` makes
`params.path("name")` throw (caught as -32603 with the request id);
otherwise the tool executes and the outcome is a result response or a
-32603 error response, always carrying the request id. -/
def MCPProtocolHandler.handleToolsCall (st : ProtoState) (id : Option Int)
    (params : Option Json) : ProtoState × Option RpcResponse :=
  if st.ready = false then (st, some ⟨id, .err (-32002)⟩)
  else
    match params with
    | none => (st, some ⟨id, .err (-32603)⟩)
    | some p =>
        let name := asText (jsGet p "name")
        let args := (p.get? "arguments").getD .null
        match ToolManager.executeTool st.tm name args with
        | (tm2, .ok _) => ({ st with tm := tm2 }, some ⟨id, .result⟩)
        | (tm2, .error _) => ({ st with tm := tm2 }, some ⟨id, .err (-32603)⟩)

/-- Embeds `MCPProtocolHandler.handleResourcesRead` (lines 293-318):
the guard answers -32002; a missing `params` throws inside the try
(-32603 with the request id); otherwise `readResource` returns a
payload (missing resources yield an error payload, still a result
response). -/
def MCPProtocolHandler.handleResourcesRead (st : ProtoState) (id : Option Int)
    (params : Option Json) : ProtoState × Option RpcResponse :=
  if st.ready = false then (st, some ⟨id, .err (-32002)⟩)
  else
    match params with
    | none => (st, some ⟨id, .err (-32603)⟩)
    | some _ => (st, some ⟨id, .result⟩)

/-- Embeds `MCPProtocolHandler.handleMessage` (lines 66-116) after
JSON parsing: the `jsonrpc` check answers -32600 with a NULL id (the
request id is discarded on that path); the method switch routes to
the handlers, where `initialized`, `resources/updated` and
`notifications/initialized` are notification handlers returning no
response (`null`), and an unknown method answers -32601 with the
request id.  Only the `initialized` handler sets `isInitialized`. -/
def MCPProtocolHandler.handleMessage (st : ProtoState) (msg : RpcMessage) :
    ProtoState × Option RpcResponse :=
  if msg.jsonrpc ≠ some "2.0" then
    (st, some ⟨none, .err (-32600)⟩)
  else if msg.method = "initialize" then
    (st, some ⟨msg.id, .result⟩)
  else if msg.method = "initialized" then
    ({ st with ready := true }, none)
  else if msg.method = "tools/list" then
    (if st.ready = false then (st, some ⟨msg.id, .err (-32002)⟩)
     else (st, some ⟨msg.id, .result⟩))
  else if msg.method = "tools/call" then
    MCPProtocolHandler.handleToolsCall st msg.id msg.params
  else if msg.method = "resources/list" then
    (if st.ready = false then (st, some ⟨msg.id, .err (-32002)⟩)
     else (st, some ⟨msg.id, .result⟩))
  else if msg.method = "resources/read" then
    MCPProtocolHandler.handleResourcesRead st msg.id msg.params
  else if msg.method = "resources/updated" then
    (st, none)
  else if msg.method = "ping" then
    (st, some ⟨msg.id, .result⟩)
  else if msg.method = "notifications/initialized" then
    (st, none)
  else
    (st, some ⟨msg.id, .err (-32601)⟩)

/-- The methods routed to notification handlers (those return `null`
and produce no response). -/
def notifMethods : List String :=
  ["initialized", "resources/updated", "notifications/initialized"]

/-! ### `FileSystemTool` (tools/FileSystemTool.java) -/

/-- `FileSystemTool` failures: `invalidArgs` is an
`IllegalArgumentException`, `security` a `SecurityException` raised
for a forbidden path (carrying the offending path). -/
inductive FsErr where
  | invalidArgs (msg : String)
  | security (path : String)

/-- The action switch of `FileSystemTool.execute`
(`existsQ` stands for the source case "exists", which is not a legal
Lean name). -/
inductive FsAction where
  | read
  | write
  | list
  | info
  | existsQ
  | delete
  | mkdir

/-- The `switch (action)` dispatch: the seven supported actions. -/
def parseAction (a : String) : Option FsAction :=
  if a = "read" then some .read
  else if a = "write" then some .write
  else if a = "list" then some .list
  else if a = "info" then some .info
  else if a = "exists" then some .existsQ
  else if a = "delete" then some .delete
  else if a = "mkdir" then some .mkdir
  else none

/-- Embeds `FileSystemTool.validateArguments` (lines 181-204):
arguments must be a JSON object with `action` and `path` (and
`content` for a write), and the path must not contain ".." nor start
with a slash or backslash — otherwise a `SecurityException`. -/
def FileSystemTool.validateArguments (args : Json) : Except FsErr Unit :=
  match args with
  | .obj _ =>
      if (args.get? "action").isNone then
        .error (.invalidArgs "Falta el argumento action")
      else if (args.get? "path").isNone then
        .error (.invalidArgs "Falta el argumento path")
      else
        let action := asText ((args.get? "action").getD .null)
        if action == "write" && (args.get? "content").isNone then
          .error (.invalidArgs "La accion write requiere el argumento content")
        else
          let path := asText ((args.get? "path").getD .null)
          if hasDotDot path || strStartsWith path "/" || strStartsWith path "\\" then
            .error (.security path)
          else .ok ()
  | _ => .error (.invalidArgs "Los argumentos deben ser un objeto JSON")

/-- The cleaning step of `resolveSafePath`: backslashes become
slashes and a leading "./" is stripped. -/
def fsClean (relativePath : String) : String :=
  if strStartsWith (replaceBackslash relativePath) "./" then
    strDrop2 (replaceBackslash relativePath)
  else replaceBackslash relativePath

/-- The normalized requested path of `resolveSafePath`
(`Paths.get(relativePath).normalize()` after cleaning). -/
def fsRequested (relativePath : String) : List String :=
  normalizeSegs (segmentsOf (fsClean relativePath))

/-- Embeds `FileSystemTool.resolveSafePath` (lines 209-237): reject a
blank path, turn backslashes into slashes, strip a leading "./",
normalize, reject when the normalized form still contains ".." or is
absolute, resolve against the base directory, normalize again and
reject when the result does not start with the base (the final guard
is stated positively here: the source throws when
`!resolved.startsWith(basePath)`). -/
def FileSystemTool.resolveSafePath (basePath : List String) (relativePath : String) :
    Except FsErr (List String) :=
  if strTrim relativePath = "" then
    .error (.invalidArgs "La ruta no puede estar vacia")
  else if hasDotDot (joinSlash (fsRequested relativePath))
      || strStartsWith (fsClean relativePath) "/" then
    .error (.security relativePath)
  else if startsWithSegs basePath
      (normalizeSegs (basePath ++ fsRequested relativePath)) then
    .ok (normalizeSegs (basePath ++ fsRequested relativePath))
  else .error (.security relativePath)

/-- Embeds the validation-and-resolution phase of
`FileSystemTool.execute` (lines 133-176): validate the arguments,
resolve the target path safely, and select the action — producing the
plan (action, target path) that the filesystem operations of the
remaining switch body are then performed on.  Every read, write,
listing, deletion or directory creation in the source acts on the
`target` component of an `.ok` plan; an `.error` is thrown before any
filesystem operation runs. -/
def FileSystemTool.executePlan (basePath : List String) (args : Json) :
    Except FsErr (FsAction × List String) :=
  match FileSystemTool.validateArguments args with
  | .error e => .error e
  | .ok _ =>
      match FileSystemTool.resolveSafePath basePath
          (asText ((args.get? "path").getD .null)) with
      | .error e => .error e
      | .ok target =>
          match parseAction (asText ((args.get? "action").getD .null)) with
          | some a => .ok (a, target)
          | none => .error (.invalidArgs ("Accion no soportada: "
              ++ asText ((args.get? "action").getD .null)))

/-! ### Concrete fixtures used by witnesses and counterexamples -/

/-- A concrete enabled Java tool (test fixture, in the shape of the
calculator tool the Java application registers at startup). -/
def sampleTool : JTool where
  name := "calculator"
  description := "Operaciones matematicas"
  category := "math"
  inputSchema := Json.obj [("type", Json.str "object")]
  version := "1.0.0"
  requiresAuth := false
  enabled := true
  execute := fun _ => .ok (Json.str "ok")

/-- A concrete tool whose `isEnabled()` is false (test fixture for
the disabled-registration path of `registerTool`). -/
def disabledTool : JTool where
  name := "disabled_sample"
  description := "herramienta deshabilitada"
  category := "test"
  inputSchema := Json.obj [("type", Json.str "object")]
  version := "1.0.0"
  requiresAuth := false
  enabled := false
  execute := fun _ => .ok Json.null

/-- A concrete tool whose body throws (test fixture modelling a
database tool whose Document Store is unreachable). -/
def failingTool : JTool where
  name := "db_find"
  description := "Ejecuta una consulta find en MongoDB"
  category := "database"
  inputSchema := Json.obj [("type", Json.str "object")]
  version := "1.0.0"
  requiresAuth := false
  enabled := true
  execute := fun _ => .error "MongoDB no conectado"

/-- The catch block of the Java `executeTool` as a wrapping function:
a success passes through, a thrown message `m` becomes the
`executionFailed` wrapper. -/
def jvmWrap (name : String) : Except String Json → Except JErr Json
  | .ok r => .ok r
  | .error m => .error (.executionFailed name m)

/-! ### Auxiliary lemmas -/

theorem mapGet_append_of_none {α : Type} (m1 m2 : List (String × α)) (k : String)
    (h : mapGet m1 k = none) : mapGet (m1 ++ m2) k = mapGet m2 k := by
  induction m1 with
  | nil => simp
  | cons hd tl ih =>
      obtain ⟨k0, v0⟩ := hd
      by_cases h0 : k0 = k
      · simp [mapGet, h0] at h
      · simp [mapGet, h0] at h ⊢
        exact ih h

theorem registerFold_fresh (ts : List JsTool) :
    ∀ reg : JsRegistry, (ts.map JsTool.name).Nodup →
      (∀ t ∈ ts, mapGet reg t.name = none) →
      ts.foldl (fun r t => mapSet r t.name t) reg =
        reg ++ ts.map fun t => (t.name, t) := by
  induction ts with
  | nil => intro reg _ _; simp
  | cons t rest ih =>
      intro reg hnd hf
      simp only [List.foldl_cons, List.map_cons]
      rw [mapSet_fresh_append reg t.name t (hf t (by simp))]
      have hnd2 : (rest.map JsTool.name).Nodup := (List.nodup_cons.mp hnd).2
      have hmem : t.name ∉ rest.map JsTool.name := (List.nodup_cons.mp hnd).1
      have hf2 : ∀ u ∈ rest, mapGet (reg ++ [(t.name, t)]) u.name = none := by
        intro u hu
        have hne : t.name ≠ u.name := by
          intro he
          exact hmem (he ▸ List.mem_map_of_mem JsTool.name hu)
        rw [mapGet_append_of_none _ _ _ (hf u (by simp [hu]))]
        simp [mapGet, hne]
      rw [ih (reg ++ [(t.name, t)]) hnd2 hf2]
      simp

/-! ### Claims about the dispatcher (C1, C2, C5, C7) -/

/-- Claim C1, counterexample.  The claim states that a call whose raw
arguments miss a field of `inputSchema.required` fails with
`InvalidArguments` and never invokes the handler.  At the concrete
input below — the registered `echo` tool, whose schema requires
`message`, called with an empty argument object — `executeTool`
invokes the handler (flag `true`) and succeeds with
"Echo: undefined": no validation happens. -/
theorem claim1_counterexample :
    schemaRequired echoTool.inputSchema = ["message"] ∧
    (Json.obj []).get? "message" = none ∧
    ToolsRegistry.executeTool echoReg "echo" (Json.obj []) =
      (.ok (.str "Echo: undefined"), true) := by
  refine ⟨rfl, rfl, ?_⟩
  simp [ToolsRegistry.executeTool, echoReg, echoTool, mapSet, mapGet, jsGet, Json.get?,
    jsToString, jsRun]

/-- Claim C1, amended.  Neither dispatcher validates arguments
against `inputSchema`: for a registered (and, on the Java side,
enabled) tool the raw arguments are passed to the handler unchanged
and the handler is always invoked, its outcome being returned
(wrapped on the Java side); in particular the registered `echo` tool
called without its required `message` field succeeds with
"Echo: undefined". -/
theorem claim1_amended :
    (∀ (reg : JsRegistry) (name : String) (args : Json) (t : JsTool),
        mapGet reg name = some t →
        ToolsRegistry.executeTool reg name args = (jsRun (t.handler args), true)) ∧
    (∀ (st : ToolManagerState) (name : String) (args : Json) (t : JTool),
        mapGet st.tools name = some t → t.enabled = true →
        (ToolManager.executeTool st name args).2 = jvmWrap name (t.execute args)) ∧
    ToolsRegistry.executeTool echoReg "echo" (Json.obj []) =
      (.ok (.str "Echo: undefined"), true) := by
  refine ⟨?_, ?_, ?_⟩
  · intro reg name args t h
    unfold ToolsRegistry.executeTool
    rw [h]
  · intro st name args t h he
    unfold ToolManager.executeTool
    simp only []
    rw [show mapGet ({ st with executionCount := st.executionCount + 1 } :
          ToolManagerState).tools name = some t from h]
    cases hx : t.execute args <;> simp [he, hx, jvmWrap]
  · simp [ToolsRegistry.executeTool, echoReg, echoTool, mapSet, mapGet, jsGet, Json.get?,
      jsToString, jsRun]

/-- Claim C1 witness: the first part of the amended claim applied to
the `echo` tool with a well-formed argument object. -/
theorem claim1_amended_witness :
    ToolsRegistry.executeTool echoReg "echo" (Json.obj [("message", Json.str "hi")]) =
      (jsRun (echoTool.handler (Json.obj [("message", Json.str "hi")])), true) :=
  claim1_amended.1 echoReg "echo" (Json.obj [("message", Json.str "hi")]) echoTool rfl

/-- Claim C2: invoking an unregistered name yields the not-found
error on both sides — the JS dispatcher throws
"Herramienta no encontrada" without invoking any handler (flag
`false`), and the Java dispatcher throws `toolNotFound` after only
bumping its counters, leaving the tools map untouched.  No handler
and hence no collaborator is reached on either path. -/
theorem claim2_unregistered_name :
    (∀ (reg : JsRegistry) (name : String) (args : Json),
        mapGet reg name = none →
        ToolsRegistry.executeTool reg name args = (.error (.notFound name), false)) ∧
    (∀ (st : ToolManagerState) (name : String) (args : Json),
        mapGet st.tools name = none →
        ToolManager.executeTool st name args =
          ({ st with executionCount := st.executionCount + 1,
                     errorCount := st.errorCount + 1 },
           .error (.toolNotFound name))) := by
  constructor
  · intro reg name args h
    unfold ToolsRegistry.executeTool
    rw [h]
  · intro st name args h
    unfold ToolManager.executeTool
    simp only []
    rw [show mapGet ({ st with executionCount := st.executionCount + 1 } :
          ToolManagerState).tools name = none from h]

/-- Claim C2 witness: the unknown name "nope" against an empty JS
registry and a fresh Java manager. -/
theorem claim2_witness :
    ToolsRegistry.executeTool ([] : JsRegistry) "nope" (Json.obj []) =
      (.error (.notFound "nope"), false) ∧
    ToolManager.executeTool ToolManager.initState "nope" Json.null =
      (⟨[], 1, 1⟩, .error (.toolNotFound "nope")) :=
  ⟨claim2_unregistered_name.1 [] "nope" (Json.obj []) rfl,
   claim2_unregistered_name.2 ToolManager.initState "nope" Json.null rfl⟩

/-- Claim C5: a `tools/list` call leaves the registry untouched, so
two consecutive calls with no intervening mutation return the same
listing; and registering a sequence of distinctly named tools into an
empty registry lists them exactly in registration (insertion)
order. -/
theorem claim5_listing_idempotent_in_insertion_order :
    (∀ reg : JsRegistry,
        (ToolsRegistry.toolsListCall reg).1 = reg ∧
        (ToolsRegistry.toolsListCall ((ToolsRegistry.toolsListCall reg).1)).2 =
          (ToolsRegistry.toolsListCall reg).2) ∧
    (∀ ts : List JsTool, (ts.map JsTool.name).Nodup →
        ToolsRegistry.getAvailableTools (ToolsRegistry.registerList ts) =
          ts.map fun t => ⟨t.name, t.description, t.inputSchema⟩) := by
  constructor
  · intro reg
    exact ⟨rfl, rfl⟩
  · intro ts hnd
    unfold ToolsRegistry.registerList
    rw [registerFold_fresh ts [] hnd (by intro t _; rfl)]
    unfold ToolsRegistry.getAvailableTools
    simp

/-- Claim C5 witness: registering `echo` then `get_time` lists
exactly those two descriptors in that order. -/
theorem claim5_witness :
    ToolsRegistry.getAvailableTools (ToolsRegistry.registerList
        [echoTool, getTimeTool "2025-09-01T12:00:00.000Z"]) =
      [⟨"echo", "Repite el mensaje proporcionado", echoTool.inputSchema⟩,
       ⟨"get_time", "Obtiene la hora actual",
        (getTimeTool "2025-09-01T12:00:00.000Z").inputSchema⟩] :=
  claim5_listing_idempotent_in_insertion_order.2
    [echoTool, getTimeTool "2025-09-01T12:00:00.000Z"] (by simp [echoTool, getTimeTool])

/-- Claim C7: when a registered, enabled tool throws with message
`m`, the Java dispatcher re-raises it as `executionFailed` carrying
the tool name and the original message `m` verbatim — it is never
swallowed — and the error counter increments by exactly one for that
invocation. -/
theorem claim7_handler_failure_wrapped_and_counted :
    ∀ (st : ToolManagerState) (name : String) (args : Json) (t : JTool) (m : String),
      mapGet st.tools name = some t → t.enabled = true → t.execute args = .error m →
      ToolManager.executeTool st name args =
        ({ st with executionCount := st.executionCount + 1,
                   errorCount := st.errorCount + 1 },
         .error (.executionFailed name m)) := by
  intro st name args t m h he hx
  unfold ToolManager.executeTool
  simp only []
  rw [show mapGet ({ st with executionCount := st.executionCount + 1 } :
        ToolManagerState).tools name = some t from h]
  simp [he, hx]

/-- Claim C7 witness: a database tool whose store is unreachable
throws "MongoDB no conectado"; the dispatcher wraps it and counts one
error. -/
theorem claim7_witness :
    ToolManager.executeTool ⟨[("db_find", failingTool)], 0, 0⟩ "db_find" Json.null =
      (⟨[("db_find", failingTool)], 1, 1⟩,
       .error (.executionFailed "db_find" "MongoDB no conectado")) :=
  claim7_handler_failure_wrapped_and_counted ⟨[("db_find", failingTool)], 0, 0⟩
    "db_find" Json.null failingTool "MongoDB no conectado" rfl rfl rfl

/-! ### Claims about the protocol adapter (C3, C4) -/

/-- Every `tools/call` dispatch produces exactly one response
carrying the request id (result on success, -32002 before
initialization, -32603 on failure). -/
theorem handleToolsCall_responds (st : ProtoState) (id : Option Int)
    (params : Option Json) :
    ∃ st2 b, MCPProtocolHandler.handleToolsCall st id params = (st2, some ⟨id, b⟩) := by
  unfold MCPProtocolHandler.handleToolsCall
  by_cases h : st.ready = false
  · exact ⟨st, .err (-32002), by simp [h]⟩
  · cases params with
    | none => exact ⟨st, .err (-32603), by simp [h]⟩
    | some p =>
        rcases hx : ToolManager.executeTool st.tm (asText (jsGet p "name"))
            ((p.get? "arguments").getD .null) with ⟨tm2, r⟩
        cases r with
        | ok v => exact ⟨{ st with tm := tm2 }, .result, by simp [h, hx]⟩
        | error e => exact ⟨{ st with tm := tm2 }, .err (-32603), by simp [h, hx]⟩

/-- Every `resources/read` dispatch produces exactly one response
carrying the request id. -/
theorem handleResourcesRead_responds (st : ProtoState) (id : Option Int)
    (params : Option Json) :
    ∃ st2 b, MCPProtocolHandler.handleResourcesRead st id params = (st2, some ⟨id, b⟩) := by
  unfold MCPProtocolHandler.handleResourcesRead
  by_cases h : st.ready = false
  · exact ⟨st, .err (-32002), by simp [h]⟩
  · cases params with
    | none => exact ⟨st, .err (-32603), by simp [h]⟩
    | some p => exact ⟨st, .result, by simp [h]⟩

/-- Claim C3, counterexample.  The claim states that a response id
always equals the id of the triggering request.  At the concrete
input below — a message carrying id 7 but no `jsonrpc` tag — the
handler answers the -32600 error with a NULL id: the request id is
discarded on that path. -/
theorem claim3_counterexample :
    (MCPProtocolHandler.handleMessage protoInit
        ⟨none, some 7, "ping", none⟩).2 = some ⟨none, .err (-32600)⟩ ∧
    (RpcMessage.mk none (some 7) "ping" none).id ≠ (none : Option Int) := by
  exact ⟨rfl, by simp⟩

/-- Claim C3, amended.  A message failing the `jsonrpc == "2.0"`
check is answered with a -32600 error whose id is null even when the
message carried an id; a message passing the check whose method
routes to a notification handler (`initialized`, `resources/updated`,
`notifications/initialized`) never produces a response, id or not;
and every other message passing the check produces exactly one
response carrying the id of the triggering message (null when the
message had none). -/
theorem claim3_amended :
    ∀ (st : ProtoState) (msg : RpcMessage),
      (msg.jsonrpc ≠ some "2.0" →
        (MCPProtocolHandler.handleMessage st msg).2 = some ⟨none, .err (-32600)⟩) ∧
      (msg.jsonrpc = some "2.0" → msg.method ∈ notifMethods →
        (MCPProtocolHandler.handleMessage st msg).2 = none) ∧
      (msg.jsonrpc = some "2.0" → msg.method ∉ notifMethods →
        ∃ b, (MCPProtocolHandler.handleMessage st msg).2 = some ⟨msg.id, b⟩) := by
  intro st msg
  refine ⟨?_, ?_, ?_⟩
  · intro h
    simp [MCPProtocolHandler.handleMessage, h]
  · intro hj hm
    simp only [notifMethods, List.mem_cons, List.mem_singleton, List.not_mem_nil,
      or_false] at hm
    rcases hm with h | h | h <;>
      simp [MCPProtocolHandler.handleMessage, hj, h]
  · intro hj hm
    simp only [notifMethods, List.mem_cons, List.mem_singleton, List.not_mem_nil,
      or_false, not_or] at hm
    obtain ⟨h1, h2, h3⟩ := hm
    unfold MCPProtocolHandler.handleMessage
    simp only [hj, ne_eq, not_true_eq_false, if_false, reduceCtorEq]
    split_ifs <;>
      first
        | exact ⟨.result, rfl⟩
        | exact ⟨.err (-32002), rfl⟩
        | exact ⟨.err (-32601), rfl⟩
        | (obtain ⟨st2, b, hb⟩ := handleToolsCall_responds st msg.id msg.params
           exact ⟨b, by rw [hb]⟩)
        | (obtain ⟨st2, b, hb⟩ := handleResourcesRead_responds st msg.id msg.params
           exact ⟨b, by rw [hb]⟩)

/-- Claim C3 witness: a well-formed `initialized` notification
produces no response. -/
theorem claim3_amended_witness :
    (MCPProtocolHandler.handleMessage protoInit
        ⟨some "2.0", none, "initialized", none⟩).2 = none :=
  (claim3_amended protoInit ⟨some "2.0", none, "initialized", none⟩).2.1 rfl
    (by simp [notifMethods])

/-- The nine methods the switch of `handleMessage` implements. -/
def handledMethods : List String :=
  ["initialize", "initialized", "tools/list", "tools/call", "resources/list",
   "resources/read", "resources/updated", "ping", "notifications/initialized"]

/-- Claim C4, counterexample.  The claim states that before
initialization every method except `initialize` and `ping` is
answered `ServerNotInitialized` (-32002).  At the concrete input
below — the unknown method "foo" in the uninitialized state — the
handler answers `MethodNotFound` (-32601) instead. -/
theorem claim4_counterexample :
    (MCPProtocolHandler.handleMessage protoInit
        ⟨some "2.0", some 5, "foo", none⟩).2 = some ⟨some 5, .err (-32601)⟩ ∧
    (-32601 : Int) ≠ -32002 := by
  exact ⟨rfl, by decide⟩

/-- Claim C4, amended.  Before initialization: the four implemented
request methods `tools/list`, `tools/call`, `resources/list` and
`resources/read` are answered -32002; `initialize` and `ping` are
answered normally (result responses); an unknown method is answered
-32601 (not -32002); and the notification-routed methods produce no
response. -/
theorem claim4_amended :
    ∀ (st : ProtoState) (msg : RpcMessage),
      st.ready = false → msg.jsonrpc = some "2.0" →
      (msg.method = "tools/list" ∨ msg.method = "tools/call" ∨
       msg.method = "resources/list" ∨ msg.method = "resources/read" →
        (MCPProtocolHandler.handleMessage st msg).2 = some ⟨msg.id, .err (-32002)⟩) ∧
      (msg.method = "initialize" ∨ msg.method = "ping" →
        (MCPProtocolHandler.handleMessage st msg).2 = some ⟨msg.id, .result⟩) ∧
      (msg.method ∉ handledMethods →
        (MCPProtocolHandler.handleMessage st msg).2 = some ⟨msg.id, .err (-32601)⟩) ∧
      (msg.method ∈ notifMethods →
        (MCPProtocolHandler.handleMessage st msg).2 = none) := by
  intro st msg hready hj
  refine ⟨?_, ?_, ?_, ?_⟩
  · intro hm
    rcases hm with h | h | h | h <;>
      simp [MCPProtocolHandler.handleMessage, MCPProtocolHandler.handleToolsCall,
        MCPProtocolHandler.handleResourcesRead, hj, h, hready]
  · intro hm
    rcases hm with h | h <;>
      simp [MCPProtocolHandler.handleMessage, hj, h, hready]
  · intro hm
    simp only [handledMethods, List.mem_cons, List.mem_singleton, List.not_mem_nil,
      or_false, not_or] at hm
    obtain ⟨n1, n2, n3, n4, n5, n6, n7, n8, n9⟩ := hm
    simp [MCPProtocolHandler.handleMessage, hj, n1, n2, n3, n4, n5, n6, n7, n8, n9]
  · intro hm
    simp only [notifMethods, List.mem_cons, List.mem_singleton, List.not_mem_nil,
      or_false] at hm
    rcases hm with h | h | h <;>
      simp [MCPProtocolHandler.handleMessage, hj, h]

/-- Claim C4 witness: `tools/list` before initialization answers
-32002 with the request id, and `ping` in the same state is answered
normally. -/
theorem claim4_amended_witness :
    (MCPProtocolHandler.handleMessage protoInit
        ⟨some "2.0", some 1, "tools/list", none⟩).2 = some ⟨some 1, .err (-32002)⟩ ∧
    (MCPProtocolHandler.handleMessage protoInit
        ⟨some "2.0", some 2, "ping", none⟩).2 = some ⟨some 2, .result⟩ :=
  ⟨(claim4_amended protoInit ⟨some "2.0", some 1, "tools/list", none⟩ rfl rfl).1
      (Or.inl rfl),
   (claim4_amended protoInit ⟨some "2.0", some 2, "ping", none⟩ rfl rfl).2.1
      (Or.inr rfl)⟩

/-! ### Claims about the registry (C6, C8, C9) -/

/-- Every tool stored in the map reports `isEnabled() = true`. -/
def enabledInv (m : List (String × JTool)) : Prop :=
  ∀ kv ∈ m, (kv : String × JTool).2.enabled = true

theorem enabledInv_mapSet (m : List (String × JTool)) (k : String) (t : JTool)
    (hm : enabledInv m) (ht : t.enabled = true) : enabledInv (mapSet m k t) := by
  induction m with
  | nil =>
      intro kv hkv
      simp [mapSet] at hkv
      simp [hkv, ht]
  | cons hd tl ih =>
      obtain ⟨k0, v0⟩ := hd
      have hhd : v0.enabled = true := hm (k0, v0) (by simp)
      have htl : enabledInv tl := fun kv hkv => hm kv (by simp [hkv])
      intro kv hkv
      by_cases h : k0 = k
      · simp [mapSet, h] at hkv
        rcases hkv with h2 | h2
        · simp [h2, ht]
        · exact htl kv h2
      · simp [mapSet, h] at hkv
        rcases hkv with h2 | h2
        · simp [h2, hhd]
        · exact ih htl kv h2

theorem mem_of_mem_mapRemove {α : Type} (m : List (String × α)) (k : String)
    (kv : String × α) (h : kv ∈ mapRemove m k) : kv ∈ m := by
  induction m with
  | nil => simp [mapRemove] at h
  | cons hd tl ih =>
      obtain ⟨k0, v0⟩ := hd
      by_cases h0 : k0 = k
      · simp [mapRemove, h0] at h
        simp [ih h]
      · simp [mapRemove, h0] at h
        rcases h with h2 | h2
        · simp [h2]
        · simp [ih h2]

theorem enabledInv_mapRemove (m : List (String × JTool)) (k : String)
    (hm : enabledInv m) : enabledInv (mapRemove m k) :=
  fun kv hkv => hm kv (mem_of_mem_mapRemove m k kv hkv)

/-- `executeTool` only touches the counters, never the map. -/
theorem executeTool_preserves_tools (st : ToolManagerState) (n : String) (a : Json) :
    ((ToolManager.executeTool st n a).1).tools = st.tools := by
  unfold ToolManager.executeTool
  rcases h : mapGet st.tools n with _ | t
  · simp [h]
  · by_cases he : t.enabled = true
    · rcases hx : t.execute a with v | m <;> simp [h, he, hx]
    · simp [h, he]

theorem applyOp_enabledInv (st : ToolManagerState) (op : RegOp)
    (h : enabledInv st.tools) : enabledInv (applyOp st op).tools := by
  cases op with
  | reg t =>
      unfold applyOp ToolManager.registerTool
      by_cases h1 : strTrim t.name = ""
      · simpa [h1] using h
      · by_cases h2 : t.enabled = true
        · simpa [h1, h2] using enabledInv_mapSet st.tools t.name t h h2
        · simpa [h1, h2] using h
  | unreg n =>
      unfold applyOp ToolManager.unregisterTool
      exact enabledInv_mapRemove st.tools n h
  | exec n a =>
      unfold applyOp
      rw [executeTool_preserves_tools]
      exact h

theorem runOps_enabledInv (ops : List RegOp) :
    ∀ st : ToolManagerState, enabledInv st.tools → enabledInv (runOps st ops).tools := by
  induction ops with
  | nil => intro st h; simpa [runOps] using h
  | cons op rest ih =>
      intro st h
      have := ih (applyOp st op) (applyOp_enabledInv st op h)
      simpa [runOps, List.foldl_cons] using this

theorem filter_enabled_of_inv (m : List (String × JTool)) (h : enabledInv m) :
    (m.filter fun kv => kv.2.enabled) = m := by
  induction m with
  | nil => simp
  | cons hd tl ih =>
      have hhd : hd.2.enabled = true := h hd (by simp)
      have htl : enabledInv tl := fun kv hkv => h kv (by simp [hkv])
      simp [List.filter_cons, hhd, ih htl]

/-- Claim C6: in every manager state reachable from a fresh manager
by register/unregister/execute operations, the `tools/list` JSON
lists exactly the currently enabled descriptors (it agrees with the
spec-side `listAll`, which filters disabled descriptors out), and the
reported tool count equals the length of that listing.  The code
listing performs no enabled-filter, but `registerTool` refuses
disabled descriptors, so no reachable state stores one. -/
theorem claim6_listing_exactly_enabled :
    ∀ ops : List RegOp,
      ToolManager.getToolsListAsJson (runOps ToolManager.initState ops) =
        specListAll (runOps ToolManager.initState ops) ∧
      ToolManager.getToolCount (runOps ToolManager.initState ops) =
        (ToolManager.getToolsListAsJson (runOps ToolManager.initState ops)).length := by
  intro ops
  have hinv : enabledInv (runOps ToolManager.initState ops).tools :=
    runOps_enabledInv ops ToolManager.initState
      (by intro kv hkv; simp [ToolManager.initState] at hkv)
  constructor
  · unfold ToolManager.getToolsListAsJson specListAll
    rw [filter_enabled_of_inv _ hinv]
  · unfold ToolManager.getToolCount ToolManager.getToolsListAsJson
    rw [filter_enabled_of_inv _ hinv, List.length_map]

/-- The key-value pair just written is in the map. -/
theorem mem_mapSet_self {α : Type} (m : List (String × α)) (k : String) (v : α) :
    (k, v) ∈ mapSet m k v := by
  induction m with
  | nil => simp [mapSet]
  | cons hd tl ih =>
      obtain ⟨k0, v0⟩ := hd
      by_cases h : k0 = k
      · simp [mapSet, h]
      · simp [mapSet, h, ih]

/-- Claim C8, counterexample.  The claim states that `register` with
a non-empty name always inserts the descriptor and makes it visible
to listings.  At the concrete input below — `disabledTool`, whose
name "disabled_sample" is non-empty but whose `isEnabled()` is false
— `registerTool` returns successfully without error, yet the registry
is unchanged and the listing stays empty. -/
theorem claim8_counterexample :
    disabledTool.name = "disabled_sample" ∧
    ToolManager.registerTool ToolManager.initState disabledTool =
      .ok ToolManager.initState ∧
    ToolManager.getToolsListAsJson ToolManager.initState = [] := by
  exact ⟨rfl, rfl, rfl⟩

/-- Claim C8, amended.  `registerTool` fails with
`InvalidDescriptor` exactly when the name trims to the empty string
(leaving the registry unchanged); a disabled descriptor with a
non-empty name is skipped silently — no error, registry unchanged;
an enabled descriptor with a non-empty name is inserted (replacing
any prior holder of the name) and becomes visible to subsequent
lookups and listings. -/
theorem claim8_amended :
    ∀ (st : ToolManagerState) (t : JTool),
      (strTrim t.name = "" →
        ToolManager.registerTool st t = .error .invalidDescriptor) ∧
      (strTrim t.name ≠ "" → t.enabled = false →
        ToolManager.registerTool st t = .ok st) ∧
      (strTrim t.name ≠ "" → t.enabled = true →
        ToolManager.registerTool st t =
          .ok { st with tools := mapSet st.tools t.name t } ∧
        ToolManager.getToolInfo { st with tools := mapSet st.tools t.name t }
          t.name = some t ∧
        (⟨t.name, t.description, t.inputSchema, t.category, t.version,
          t.requiresAuth⟩ : JToolListing) ∈
          ToolManager.getToolsListAsJson { st with tools := mapSet st.tools t.name t }) := by
  intro st t
  refine ⟨?_, ?_, ?_⟩
  · intro h
    simp [ToolManager.registerTool, h]
  · intro h1 h2
    simp [ToolManager.registerTool, h1, h2]
  · intro h1 h2
    refine ⟨by simp [ToolManager.registerTool, h1, h2], ?_, ?_⟩
    · unfold ToolManager.getToolInfo
      exact mapGet_set_self st.tools t.name t
    · unfold ToolManager.getToolsListAsJson
      exact List.mem_map_of_mem _ (mem_mapSet_self st.tools t.name t)

/-- Claim C8 witness: registering the enabled `sampleTool` into a
fresh manager inserts it, makes it visible to lookup, and lists
it. -/
theorem claim8_witness :
    ToolManager.registerTool ToolManager.initState sampleTool =
      .ok { ToolManager.initState with
            tools := mapSet ToolManager.initState.tools sampleTool.name sampleTool } ∧
    ToolManager.getToolInfo { ToolManager.initState with
        tools := mapSet ToolManager.initState.tools sampleTool.name sampleTool }
      sampleTool.name = some sampleTool :=
  ⟨((claim8_amended ToolManager.initState sampleTool).2.2 (by decide) rfl).1,
   ((claim8_amended ToolManager.initState sampleTool).2.2 (by decide) rfl).2.1⟩

/-- An operation replaces or removes the entry of name `n` only when
it is a successful re-registration of `n` or an unregistration of
`n`. -/
def touchesName (op : RegOp) (n : String) : Prop :=
  match op with
  | .reg u => u.name = n ∧ u.enabled = true
  | .unreg m => m = n
  | .exec _ _ => False

/-- Claim C9, counterexample.  The claim states that after
`register(descriptor)`, `lookup(name)` returns that exact descriptor.
At the concrete input below — the disabled descriptor
`disabledTool` — registration reports success, yet the subsequent
lookup of its name finds nothing. -/
theorem claim9_counterexample :
    ToolManager.registerTool ToolManager.initState disabledTool =
      .ok ToolManager.initState ∧
    ToolManager.getToolInfo ToolManager.initState disabledTool.name = none := by
  exact ⟨rfl, rfl⟩

/-- Claim C9, amended.  For every descriptor that `registerTool`
actually inserts — enabled, with a name that does not trim to the
empty string — the registration succeeds and lookup of the name
returns that exact descriptor; the lookup keeps returning it across
any further operations that neither successfully re-register the name
nor unregister it; and after `unregisterTool(name)` the lookup of the
name returns none.  (For a disabled descriptor registration is a
silent no-op, see the counterexample.) -/
theorem claim9_amended :
    (∀ (st : ToolManagerState) (t : JTool),
        strTrim t.name ≠ "" → t.enabled = true →
        ToolManager.registerTool st t =
          .ok { st with tools := mapSet st.tools t.name t } ∧
        ToolManager.getToolInfo { st with tools := mapSet st.tools t.name t }
          t.name = some t) ∧
    (∀ (st : ToolManagerState) (t : JTool) (ops : List RegOp),
        ToolManager.getToolInfo st t.name = some t →
        (∀ op ∈ ops, ¬ touchesName op t.name) →
        ToolManager.getToolInfo (runOps st ops) t.name = some t) ∧
    (∀ (st : ToolManagerState) (n : String),
        ToolManager.getToolInfo (ToolManager.unregisterTool st n) n = none) := by
  refine ⟨?_, ?_, ?_⟩
  · intro st t h1 h2
    exact ⟨by simp [ToolManager.registerTool, h1, h2],
      mapGet_set_self st.tools t.name t⟩
  · intro st t ops
    induction ops generalizing st with
    | nil => intro h _; simpa [runOps] using h
    | cons op rest ih =>
        intro h hops
        have hop : ¬ touchesName op t.name := hops op (by simp)
        have hrest : ∀ o ∈ rest, ¬ touchesName o t.name :=
          fun o ho => hops o (by simp [ho])
        have hstep : ToolManager.getToolInfo (applyOp st op) t.name = some t := by
          cases op with
          | reg u =>
              unfold applyOp ToolManager.registerTool
              by_cases h1 : strTrim u.name = ""
              · simpa [h1] using h
              · by_cases h2 : u.enabled = true
                · have hne : t.name ≠ u.name := by
                    intro he
                    exact hop (by simp [touchesName, he, h2])
                  unfold ToolManager.getToolInfo at h ⊢
                  simpa [h1, h2] using
                    (mapGet_set_ne st.tools u.name t.name u hne).trans h
                · simpa [h1, h2] using h
          | unreg m =>
              have hne : t.name ≠ m := by
                intro he
                exact hop (by simp [touchesName, he])
              unfold applyOp ToolManager.unregisterTool
              unfold ToolManager.getToolInfo at h ⊢
              simpa using (mapGet_remove_ne st.tools m t.name hne).trans h
          | exec n a =>
              unfold applyOp
              unfold ToolManager.getToolInfo at h ⊢
              rw [executeTool_preserves_tools]
              exact h
        have := ih (applyOp st op) hstep hrest
        simpa [runOps, List.foldl_cons] using this
  · intro st n
    unfold ToolManager.getToolInfo ToolManager.unregisterTool
    exact mapGet_remove_self st.tools n

/-- Claim C9 witness: `sampleTool` stays visible across an unrelated
unregistration, a disabled registration of another name, and an
execution; the lookup still returns the exact descriptor. -/
theorem claim9_witness :
    ToolManager.getToolInfo
        (runOps ⟨[("calculator", sampleTool)], 0, 0⟩
          [RegOp.unreg "filesystem", RegOp.reg disabledTool,
           RegOp.exec "calculator" Json.null])
        "calculator" = some sampleTool :=
  claim9_amended.2.1 ⟨[("calculator", sampleTool)], 0, 0⟩ sampleTool
    [RegOp.unreg "filesystem", RegOp.reg disabledTool,
     RegOp.exec "calculator" Json.null] rfl
    (by
      intro op hop
      simp only [List.mem_cons, List.mem_singleton, List.not_mem_nil, or_false] at hop
      rcases hop with h | h | h <;> subst h <;> simp [touchesName, disabledTool, sampleTool])

/-! ### Claim about the filesystem tool (C10) -/

theorem startsWithSegs_exists (b : List String) :
    ∀ p : List String, startsWithSegs b p = true → ∃ rest, p = b ++ rest := by
  induction b with
  | nil => intro p _; exact ⟨p, rfl⟩
  | cons x bs ih =>
      intro p h
      cases p with
      | nil => simp [startsWithSegs] at h
      | cons y ps =>
          simp only [startsWithSegs, Bool.and_eq_true, beq_iff_eq] at h
          obtain ⟨hxy, hrec⟩ := h
          obtain ⟨rest, hr⟩ := ih ps hrec
          exact ⟨rest, by simp [hxy, hr]⟩

/-- A path accepted by `resolveSafePath` starts with the base
directory: the final guard of the source rejects anything else. -/
theorem resolveSafePath_confined (base : List String) (rel : String) (p : List String)
    (h : FileSystemTool.resolveSafePath base rel = .ok p) :
    startsWithSegs base p = true := by
  unfold FileSystemTool.resolveSafePath at h
  split_ifs at h with h1 h2 h3
  · simp only [Except.ok.injEq] at h
    rw [← h]
    exact h3


/-- Claim C10: (1) every plan the filesystem tool accepts operates on
a target path that extends the workspace base directory — no code
path yields a target outside it; (2) any call whose `path` argument
contains ".." or starts with a slash or backslash is refused before
the action dispatch — `executePlan` never returns a plan for it; and
(3) when the other arguments are well-formed, that refusal is
precisely the `SecurityException` of `validateArguments`, raised
before any filesystem operation. -/
theorem claim10_path_confinement :
    (∀ (base : List String) (args : Json) (a : FsAction) (p : List String),
        FileSystemTool.executePlan base args = .ok (a, p) →
        ∃ rest, p = base ++ rest) ∧
    (∀ (base : List String) (args : Json) (pth : String),
        args.get? "path" = some (.str pth) →
        (hasDotDot pth || strStartsWith pth "/" || strStartsWith pth "\\") = true →
        ∃ e, FileSystemTool.executePlan base args = .error e) ∧
    (∀ (base : List String) (kvs : List (String × Json)) (act pth : String),
        (Json.obj kvs).get? "action" = some (.str act) →
        (Json.obj kvs).get? "path" = some (.str pth) →
        (act == "write" && ((Json.obj kvs).get? "content").isNone) = false →
        (hasDotDot pth || strStartsWith pth "/" || strStartsWith pth "\\") = true →
        FileSystemTool.executePlan base (Json.obj kvs) = .error (.security pth)) := by
  refine ⟨?_, ?_, ?_⟩
  · intro base args a p h
    unfold FileSystemTool.executePlan at h
    split at h
    · simp at h
    · split at h
      · simp at h
      · rename_i target hr
        split at h
        · simp only [Except.ok.injEq, Prod.mk.injEq] at h
          rw [← h.2]
          exact startsWithSegs_exists base target
            (resolveSafePath_confined base _ target hr)
        · simp at h
  · intro base args pth hpath hbad
    have hobj : ∃ kvs, args = Json.obj kvs := by
      cases args <;> simp [Json.get?] at hpath ⊢
    obtain ⟨kvs, rfl⟩ := hobj
    have hval : ∃ e, FileSystemTool.validateArguments (Json.obj kvs) = .error e := by
      unfold FileSystemTool.validateArguments
      by_cases h1 : ((Json.obj kvs).get? "action").isNone = true
      · exact ⟨.invalidArgs "Falta el argumento action", by simp [h1]⟩
      · by_cases h2 : ((Json.obj kvs).get? "path").isNone = true
        · exact ⟨.invalidArgs "Falta el argumento path", by simp [h1, h2]⟩
        · by_cases h3 : (asText (((Json.obj kvs).get? "action").getD .null) == "write"
              && ((Json.obj kvs).get? "content").isNone) = true
          · exact ⟨.invalidArgs "La accion write requiere el argumento content",
              by simp [h1, h2, h3]⟩
          · refine ⟨.security pth, ?_⟩
            have hp : asText (((Json.obj kvs).get? "path").getD .null) = pth := by
              rw [hpath]; rfl
            simp [h1, h2, h3, hp, hbad]
    obtain ⟨e, he⟩ := hval
    exact ⟨e, by unfold FileSystemTool.executePlan; rw [he]⟩
  · intro base kvs act pth hact hpath hwc hbad
    have h1 : ((Json.obj kvs).get? "action").isNone = false := by rw [hact]; rfl
    have h2 : ((Json.obj kvs).get? "path").isNone = false := by rw [hpath]; rfl
    have ha : asText (((Json.obj kvs).get? "action").getD .null) = act := by
      rw [hact]; rfl
    have hp : asText (((Json.obj kvs).get? "path").getD .null) = pth := by
      rw [hpath]; rfl
    have hval : FileSystemTool.validateArguments (Json.obj kvs) =
        .error (.security pth) := by
      unfold FileSystemTool.validateArguments
      simp [h1, h2, ha, hp, hwc, hbad]
    unfold FileSystemTool.executePlan
    rw [hval]

/-- Claim C10 witness: the concrete traversal attempt
"../secret.txt" under a read action is refused with the security
error before any filesystem operation. -/
theorem claim10_witness :
    FileSystemTool.executePlan ["home", "mcp", "workspace"]
        (Json.obj [("action", Json.str "read"), ("path", Json.str "../secret.txt")]) =
      .error (.security "../secret.txt") :=
  claim10_path_confinement.2.2 ["home", "mcp", "workspace"]
    [("action", Json.str "read"), ("path", Json.str "../secret.txt")]
    "read" "../secret.txt" rfl rfl rfl rfl

end Mcp
